import Mathlib

/-!
Shallow embedding of the `opensubtitle-exporter` import pipeline
(`src/DbHandler.py`, `src/XmlExporter.py`): the TimeCode parser
(`DbHandler.parse_time`), the guarded idempotent inserts
(`insert_table_words` / `insert_table_meta` / `insert_table_time`),
the schema bootstrap (`ensure_table_*`), the stateful traversal
(`DbHandler.write_node`, `pre_order_traversal`) and the per-file driver
loop of `XmlExporter.main`.  Python strings are modelled as `List Char`,
database tables as lists of typed rows, and Python exceptions as an
explicit `Err` type threaded through `Except`.
-/

namespace OpenSubExp

/-- Characters of a string literal; models a Python `str` value as a list of characters. -/
def strL (s : String) : List Char := s.data

/-- Python exception kinds raised by the code paths modelled here
(`KeyError` on a missing attribute, `IndexError` on out-of-range indexing,
`ValueError` from `int`, `decimal.InvalidOperation` from `Decimal`). -/
inductive Err : Type where
  | keyError
  | indexError
  | valueError
  | invalidOperation
deriving DecidableEq, Repr

instance {ε α : Type} [DecidableEq ε] [DecidableEq α] : DecidableEq (Except ε α) :=
  fun x y =>
    match x, y with
    | .ok a, .ok b => if h : a = b then isTrue (by rw [h]) else isFalse (by simp [h])
    | .error e, .error f => if h : e = f then isTrue (by rw [h]) else isFalse (by simp [h])
    | .ok _, .error _ => isFalse (by simp)
    | .error _, .ok _ => isFalse (by simp)

/-- Splits a list of characters at every occurrence of the separator, as Python
`str.split(sep)` does for a one-character separator (`"a.b.".split('.') = ["a","b",""]`,
`"".split('.') = [""]`). -/
def splitOnChar (c : Char) : List Char → List (List Char)
  | [] => [[]]
  | x :: xs =>
    match splitOnChar c xs with
    | [] => [[x]]
    | h :: t => if x = c then [] :: h :: t else (x :: h) :: t

theorem splitOnChar_ne_nil (c : Char) (l : List Char) : splitOnChar c l ≠ [] := by
  induction l with
  | nil => simp [splitOnChar]
  | cons x xs ih =>
    simp only [splitOnChar]
    cases h : splitOnChar c xs with
    | nil => simp
    | cons h t =>
      by_cases hx : x = c <;> simp [hx]

theorem splitOnChar_of_not_mem {c : Char} {l : List Char} (h : c ∉ l) :
    splitOnChar c l = [l] := by
  induction l with
  | nil => rfl
  | cons x xs ih =>
    have hx : x ≠ c := fun he => h (by simp [he])
    have hxs : c ∉ xs := fun hm => h (by simp [hm])
    simp only [splitOnChar, ih hxs]
    simp [hx]

theorem splitOnChar_sep {c : Char} {A : List Char} (B : List Char) (h : c ∉ A) :
    splitOnChar c (A ++ c :: B) = A :: splitOnChar c B := by
  induction A with
  | nil =>
    simp only [List.nil_append, splitOnChar]
    cases hb : splitOnChar c B with
    | nil => exact absurd hb (splitOnChar_ne_nil c B)
    | cons bh bt => simp
  | cons a A' ih =>
    have ha : a ≠ c := fun he => h (by simp [he])
    have hA' : c ∉ A' := fun hm => h (by simp [hm])
    simp only [List.cons_append, splitOnChar, List.append_eq]
    rw [ih hA']
    simp [ha]

/-- Digit test for ASCII characters, as used when modelling Python `int` / `Decimal`
parsing of plain digit strings. -/
def isDig (c : Char) : Bool := 48 ≤ c.toNat && c.toNat ≤ 57

/-- Character for a decimal digit. -/
def digChar (d : Nat) : Char := Char.ofNat (48 + d)

/-- Numeric value of a digit string (most significant digit first). -/
def parseDigits (l : List Char) : Nat := l.foldl (fun a c => 10 * a + (c.toNat - 48)) 0

theorem digChar_toNat {d : Nat} (h : d < 10) : (digChar d).toNat = 48 + d := by
  interval_cases d <;> decide

theorem isDig_digChar {d : Nat} (h : d < 10) : isDig (digChar d) = true := by
  interval_cases d <;> decide

theorem isDig_bounds {c : Char} (h : isDig c = true) : 48 ≤ c.toNat ∧ c.toNat ≤ 57 := by
  simpa [isDig, Bool.and_eq_true, decide_eq_true_eq] using h

theorem isDig_ne {c : Char} (h : isDig c = true) (d : Char)
    (hd : d.toNat < 48 ∨ 57 < d.toNat) : c ≠ d := by
  intro he
  have hb := isDig_bounds h
  rw [he] at hb
  omega

theorem parseDigits_append_one (A : List Char) (c : Char) :
    parseDigits (A ++ [c]) = 10 * parseDigits A + (c.toNat - 48) := by
  simp [parseDigits, List.foldl_append]

/-- Decimal rendering of a positive natural number; fuel-indexed so the recursion is
structural (the fuel is always taken at least as large as the number). -/
def natToCharsCore : Nat → Nat → List Char
  | 0, _ => []
  | _ + 1, 0 => []
  | f + 1, n + 1 => natToCharsCore f ((n + 1) / 10) ++ [digChar ((n + 1) % 10)]

/-- Decimal rendering of a natural number, as a Python f-string renders an `int`. -/
def natToChars (n : Nat) : List Char := if n = 0 then ['0'] else natToCharsCore n n

theorem parseDigits_natToCharsCore :
    ∀ f n, n ≤ f → parseDigits (natToCharsCore f n) = n := by
  intro f
  induction f with
  | zero =>
    intro n hn
    interval_cases n
    simp [natToCharsCore, parseDigits]
  | succ f ih =>
    intro n hn
    match n with
    | 0 => simp [natToCharsCore, parseDigits]
    | n + 1 =>
      have hdiv : (n + 1) / 10 ≤ f := by
        have := Nat.div_lt_self (Nat.succ_pos n) (by norm_num : 1 < 10)
        omega
      have hm : (n + 1) % 10 < 10 := Nat.mod_lt _ (by norm_num)
      rw [natToCharsCore, parseDigits_append_one, ih _ hdiv, digChar_toNat hm]
      have := Nat.div_add_mod (n + 1) 10
      omega

theorem mem_natToCharsCore_isDig :
    ∀ f n c, c ∈ natToCharsCore f n → isDig c = true := by
  intro f
  induction f with
  | zero => intro n c hc; simp [natToCharsCore] at hc
  | succ f ih =>
    intro n c hc
    match n with
    | 0 => simp [natToCharsCore] at hc
    | n + 1 =>
      rw [natToCharsCore] at hc
      rcases List.mem_append.mp hc with h | h
      · exact ih _ _ h
      · have hm : (n + 1) % 10 < 10 := Nat.mod_lt _ (by norm_num)
        simp only [List.mem_singleton] at h
        rw [h]
        exact isDig_digChar hm

theorem parseDigits_natToChars (n : Nat) : parseDigits (natToChars n) = n := by
  by_cases h : n = 0
  · subst h; decide
  · rw [natToChars, if_neg h]
    exact parseDigits_natToCharsCore n n le_rfl

theorem mem_natToChars_isDig {n : Nat} {c : Char} (hc : c ∈ natToChars n) :
    isDig c = true := by
  by_cases h : n = 0
  · subst h; simp [natToChars] at hc; rw [hc]; decide
  · rw [natToChars, if_neg h] at hc
    exact mem_natToCharsCore_isDig n n c hc

theorem natToChars_ne_nil (n : Nat) : natToChars n ≠ [] := by
  by_cases h : n = 0
  · subst h; decide
  · rw [natToChars, if_neg h]
    match hn : n with
    | n' + 1 =>
      rw [natToCharsCore]
      simp

/-- Models `int(s)` from Python on the strings arising in this code: an optional
leading minus sign followed by decimal digits.  (Python additionally strips
surrounding whitespace and allows underscores; neither occurs on these code paths —
in particular a string with an interior space, such as `"1 1"`, raises `ValueError`
both in Python and here.) -/
def pyInt (l : List Char) : Except Err Int :=
  if l.head? = some '-' then
    if l.tail ≠ [] ∧ l.tail.all isDig then .ok (-(parseDigits l.tail : Int))
    else .error .valueError
  else
    if l ≠ [] ∧ l.all isDig then .ok ((parseDigits l : Int))
    else .error .valueError

theorem pyInt_natToChars (n : Nat) : pyInt (natToChars n) = .ok (n : Int) := by
  have hne := natToChars_ne_nil n
  have hdig : (natToChars n).all isDig = true :=
    List.all_eq_true.mpr fun c hc => mem_natToChars_isDig hc
  have hhead : (natToChars n).head? ≠ some '-' := by
    cases hl : natToChars n with
    | nil => exact absurd hl hne
    | cons c cs =>
      have hc : isDig c = true := mem_natToChars_isDig (by rw [hl]; simp)
      have : c ≠ '-' := isDig_ne hc '-' (by left; decide)
      simp [this]
  rw [pyInt, if_neg hhead, if_pos ⟨hne, hdig⟩, parseDigits_natToChars]

/-- Decimal rendering of an integer, as a Python f-string renders an `int`. -/
def intToChars (i : Int) : List Char :=
  if i < 0 then '-' :: natToChars i.natAbs else natToChars i.toNat

theorem intToChars_nonneg {i : Int} (h : 0 ≤ i) : intToChars i = natToChars i.toNat := by
  rw [intToChars, if_neg (by omega)]

theorem pyInt_intToChars {i : Int} (h : 0 ≤ i) : pyInt (intToChars i) = .ok i := by
  rw [intToChars_nonneg h, pyInt_natToChars, Int.toNat_of_nonneg h]

/-- Value of Python `decimal.Decimal` as it occurs here: an integer part plus an
optional fractional digit string kept verbatim (`Decimal` drops leading zeros of the
integer part but preserves trailing fractional zeros, so `Decimal("01.000")` prints
as `"1.000"`). -/
structure Dec : Type where
  ip : Nat
  frac : Option (List Char)
deriving DecidableEq, Repr

/-- Models `str` of a `Decimal` (as a Python f-string renders it). -/
def decStr (d : Dec) : List Char :=
  natToChars d.ip ++ (match d.frac with | none => [] | some f => '.' :: f)

/-- Rational value of a `Dec`. -/
def decQ (d : Dec) : ℚ :=
  (d.ip : ℚ) + (match d.frac with
    | none => 0
    | some f => (parseDigits f : ℚ) / (10 : ℚ) ^ f.length)

/-- Models `Decimal(s)` from Python on the digit strings arising here
(`"30"`, `"30.5"`, `".5"`, `"30."`; anything else raises `decimal.InvalidOperation`). -/
def pyDecimal (l : List Char) : Except Err Dec :=
  match splitOnChar '.' l with
  | [a] =>
    if a ≠ [] ∧ a.all isDig then .ok ⟨parseDigits a, none⟩ else .error .invalidOperation
  | [a, b] =>
    if (a ≠ [] ∨ b ≠ []) ∧ a.all isDig ∧ b.all isDig then
      .ok ⟨parseDigits a, if b = [] then none else some b⟩
    else .error .invalidOperation
  | _ => .error .invalidOperation

/-- Well-formedness that `pyDecimal` guarantees for the fractional part. -/
def DecInv (d : Dec) : Prop := ∀ f, d.frac = some f → f ≠ [] ∧ f.all isDig = true

theorem pyDecimal_inv {l : List Char} {d : Dec} (h : pyDecimal l = .ok d) : DecInv d := by
  rw [pyDecimal] at h
  split at h
  · split at h
    · intro f hf
      cases h
      simp at hf
    · exact absurd h (by simp)
  · split at h
    next hc =>
      intro f hf
      cases h
      simp only at hf
      split at hf
      · simp at hf
      next hb =>
        cases hf
        exact ⟨hb, hc.2.2⟩
    · exact absurd h (by simp)
  · exact absurd h (by simp)

theorem not_mem_natToChars_dot (n : Nat) : '.' ∉ natToChars n := by
  intro hm
  have := mem_natToChars_isDig hm
  exact absurd rfl (isDig_ne this '.' (by left; decide))

theorem pyDecimal_decStr {d : Dec} (hinv : DecInv d) : pyDecimal (decStr d) = .ok d := by
  cases d with
  | mk ip frac =>
    cases frac with
    | none =>
      have hsplit : splitOnChar '.' (decStr ⟨ip, none⟩) = [natToChars ip] := by
        rw [decStr]
        simp only [List.append_nil]
        exact splitOnChar_of_not_mem (not_mem_natToChars_dot ip)
      rw [pyDecimal, hsplit]
      have h1 : natToChars ip ≠ [] := natToChars_ne_nil ip
      have h2 : (natToChars ip).all isDig = true :=
        List.all_eq_true.mpr fun c hc => mem_natToChars_isDig hc
      simp [h1, h2, parseDigits_natToChars]
    | some f =>
      obtain ⟨hf, hfd⟩ := hinv f rfl
      have hfnd : '.' ∉ f := by
        intro hm
        have := List.all_eq_true.mp hfd _ hm
        exact absurd rfl (isDig_ne this '.' (by left; decide))
      have hsplit : splitOnChar '.' (decStr ⟨ip, some f⟩) =
          [natToChars ip, f] := by
        rw [decStr]
        simp only
        rw [splitOnChar_sep f (not_mem_natToChars_dot ip), splitOnChar_of_not_mem hfnd]
      rw [pyDecimal, hsplit]
      have h1 : natToChars ip ≠ [] := natToChars_ne_nil ip
      have h2 : (natToChars ip).all isDig = true :=
        List.all_eq_true.mpr fun c hc => mem_natToChars_isDig hc
      simp [h1, h2, hfd, hf, parseDigits_natToChars]

/-- Models a Python dictionary access `node.attrib[k]`: `KeyError` when absent. -/
def pyAttr (o : Option (List Char)) : Except Err (List Char) :=
  match o with
  | some v => .ok v
  | none => .error .keyError

/-- Models Python list indexing `l[n]` for a nonnegative index: `IndexError` when out of range. -/
def pyIndex {α : Type} (l : List α) (n : Nat) : Except Err α :=
  match l[n]? with
  | some x => .ok x
  | none => .error .indexError

/-- Models the Python expression `s[-1]` on a string: `IndexError` when empty. -/
def pyLast (l : List Char) : Except Err Char :=
  match l.getLast? with
  | some c => .ok c
  | none => .error .indexError

/-- Models the Python slice `s[1:-1]` on a string (total: an empty result for short strings). -/
def slice1m1 (l : List Char) : List Char := (l.drop 1).dropLast

/-- Tokenizing front half of `DbHandler.parse_time`:
`toks = time_str.split(':')`, `hours = int(toks[0])`, `minutes = int(toks[1])`,
`seconds = Decimal(toks[2].replace(',', '.'))`, in the source's evaluation order. -/
def timeToks (s : List Char) : Except Err (Int × Int × Dec) :=
  let toks := splitOnChar ':' s
  match pyIndex toks 0 with
  | .error e => .error e
  | .ok t0 =>
    match pyInt t0 with
    | .error e => .error e
    | .ok hours =>
      match pyIndex toks 1 with
      | .error e => .error e
      | .ok t1 =>
        match pyInt t1 with
        | .error e => .error e
        | .ok minutes =>
          match pyIndex toks 2 with
          | .error e => .error e
          | .ok t2 =>
            match pyDecimal (t2.map (fun c => if c = ',' then '.' else c)) with
            | .error e => .error e
            | .ok seconds => .ok (hours, minutes, seconds)

/-- Rendering back half of `DbHandler.parse_time`: `ret = f"{days} "` when `days > 0`,
then `ret += f"{hours}:{minutes}:{seconds}"`. -/
def timeRender (days hours minutes : Int) (seconds : Dec) : List Char :=
  (if 0 < days then intToChars days ++ [' '] else []) ++
    (intToChars hours ++ (':' :: (intToChars minutes ++ (':' :: decStr seconds))))

/-- Models `DbHandler.parse_time`: split on `':'`, take `days = hours // 24`,
`hours = hours % 24` (Python floor division and modulus), and render
`[days ]hours:minutes:seconds`. -/
def parse_time (s : List Char) : Except Err (List Char) :=
  match timeToks s with
  | .error e => .error e
  | .ok (h, m, sec) => .ok (timeRender (h.fdiv 24) (h.fmod 24) m sec)

theorem timeToks_inv {s : List Char} {h m : Int} {d : Dec}
    (ht : timeToks s = .ok (h, m, d)) : DecInv d := by
  rw [timeToks] at ht
  split at ht <;> try exact absurd ht (by simp)
  split at ht <;> try exact absurd ht (by simp)
  split at ht <;> try exact absurd ht (by simp)
  split at ht <;> try exact absurd ht (by simp)
  split at ht <;> try exact absurd ht (by simp)
  split at ht
  · exact absurd ht (by simp)
  next hdec =>
    cases ht
    exact pyDecimal_inv hdec

/-- Modelled from the spec: value in seconds of the seconds field `SS[.fff]` of the
normalized representation, used only to judge duration equivalence. -/
def secVal (l : List Char) : Option ℚ :=
  match splitOnChar '.' l with
  | [a] => if a ≠ [] ∧ a.all isDig then some ((parseDigits a : ℚ)) else none
  | [a, b] =>
    if a ≠ [] ∧ a.all isDig ∧ b ≠ [] ∧ b.all isDig then
      some ((parseDigits a : ℚ) + (parseDigits b : ℚ) / (10 : ℚ) ^ b.length)
    else none
  | _ => none

/-- Modelled from the spec: value in seconds of the `H:MM:SS[.fff]` body of the
normalized representation, given a day count. -/
def timeBody (dys : ℚ) (l : List Char) : Option ℚ :=
  match splitOnChar ':' l with
  | [hs, ms, ss] =>
    if hs ≠ [] ∧ hs.all isDig ∧ ms ≠ [] ∧ ms.all isDig then
      (secVal ss).map
        (fun sv => dys * 86400 + (parseDigits hs : ℚ) * 3600 + (parseDigits ms : ℚ) * 60 + sv)
    else none
  | _ => none

/-- Modelled from the spec: duration in seconds denoted by a string of the normalized
form `[D ]H:MM:SS[.fff]` (`none` when the string is not of that form).  This evaluator
follows the spec's words for the output contract of TimeCode and is used to compare
the source's `parse_time` against it. -/
def durChars (l : List Char) : Option ℚ :=
  match splitOnChar ' ' l with
  | [body] => timeBody 0 body
  | [ds, body] => if ds ≠ [] ∧ ds.all isDig then timeBody (parseDigits ds) body else none
  | _ => none

theorem not_mem_natToChars (n : Nat) {d : Char} (hd : d.toNat < 48 ∨ 57 < d.toNat) :
    d ∉ natToChars n := by
  intro hm
  exact (isDig_ne (mem_natToChars_isDig hm) d hd) rfl

theorem mem_decStr_cases {d : Dec} (hinv : DecInv d) {c : Char} (hc : c ∈ decStr d) :
    isDig c = true ∨ c = '.' := by
  rw [decStr] at hc
  rcases List.mem_append.mp hc with h | h
  · exact Or.inl (mem_natToChars_isDig h)
  · cases hf : d.frac with
    | none => rw [hf] at h; simp at h
    | some f =>
      rw [hf] at h
      simp only [List.mem_cons] at h
      rcases h with h | h
      · exact Or.inr h
      · exact Or.inl (List.all_eq_true.mp (hinv f hf).2 _ h)

theorem not_mem_decStr {d : Dec} (hinv : DecInv d) {x : Char}
    (hx1 : x.toNat < 48 ∨ 57 < x.toNat) (hx2 : x ≠ '.') : x ∉ decStr d := by
  intro hm
  rcases mem_decStr_cases hinv hm with h | h
  · exact (isDig_ne h x hx1) rfl
  · exact hx2 h

theorem secVal_decStr {d : Dec} (hinv : DecInv d) : secVal (decStr d) = some (decQ d) := by
  cases d with
  | mk ip frac =>
    cases frac with
    | none =>
      have hsplit : splitOnChar '.' (decStr ⟨ip, none⟩) = [natToChars ip] := by
        rw [decStr]
        simp only [List.append_nil]
        exact splitOnChar_of_not_mem (not_mem_natToChars_dot ip)
      have h1 : natToChars ip ≠ [] := natToChars_ne_nil ip
      have h2 : (natToChars ip).all isDig = true :=
        List.all_eq_true.mpr fun c hc => mem_natToChars_isDig hc
      rw [secVal, hsplit]
      simp [h1, h2, parseDigits_natToChars, decQ]
    | some f =>
      obtain ⟨hf, hfd⟩ := hinv f rfl
      have hfnd : '.' ∉ f := by
        intro hm
        exact (isDig_ne (List.all_eq_true.mp hfd _ hm) '.' (by left; decide)) rfl
      have hsplit : splitOnChar '.' (decStr ⟨ip, some f⟩) = [natToChars ip, f] := by
        rw [decStr]
        simp only
        rw [splitOnChar_sep f (not_mem_natToChars_dot ip), splitOnChar_of_not_mem hfnd]
      have h1 : natToChars ip ≠ [] := natToChars_ne_nil ip
      have h2 : (natToChars ip).all isDig = true :=
        List.all_eq_true.mpr fun c hc => mem_natToChars_isDig hc
      rw [secVal, hsplit]
      simp [h1, h2, hf, hfd, parseDigits_natToChars, decQ]

theorem timeBody_render {hrs m : Int} (dys : ℚ) {d : Dec} (hinv : DecInv d)
    (hh : 0 ≤ hrs) (hm : 0 ≤ m) :
    timeBody dys (intToChars hrs ++ (':' :: (intToChars m ++ (':' :: decStr d)))) =
      some (dys * 86400 + (hrs : ℚ) * 3600 + (m : ℚ) * 60 + decQ d) := by
  rw [intToChars_nonneg hh, intToChars_nonneg hm]
  have hcol1 : (':' : Char) ∉ natToChars hrs.toNat :=
    not_mem_natToChars _ (by right; decide)
  have hcol2 : (':' : Char) ∉ natToChars m.toNat :=
    not_mem_natToChars _ (by right; decide)
  have hcol3 : (':' : Char) ∉ decStr d :=
    not_mem_decStr hinv (by right; decide) (by decide)
  have hsplit : splitOnChar ':'
      (natToChars hrs.toNat ++ (':' :: (natToChars m.toNat ++ (':' :: decStr d)))) =
      [natToChars hrs.toNat, natToChars m.toNat, decStr d] := by
    rw [splitOnChar_sep _ hcol1, splitOnChar_sep _ hcol2, splitOnChar_of_not_mem hcol3]
  have h1 : natToChars hrs.toNat ≠ [] := natToChars_ne_nil _
  have h2 : (natToChars hrs.toNat).all isDig = true :=
    List.all_eq_true.mpr fun c hc => mem_natToChars_isDig hc
  have h3 : natToChars m.toNat ≠ [] := natToChars_ne_nil _
  have h4 : (natToChars m.toNat).all isDig = true :=
    List.all_eq_true.mpr fun c hc => mem_natToChars_isDig hc
  rw [timeBody, hsplit]
  have e1 : ((hrs.toNat : ℚ)) = ((hrs : ℚ)) := by exact_mod_cast Int.toNat_of_nonneg hh
  have e2 : ((m.toNat : ℚ)) = ((m : ℚ)) := by exact_mod_cast Int.toNat_of_nonneg hm
  simp only [h1, h2, h3, h4, ne_eq, not_false_eq_true, and_self, if_true, true_and,
    secVal_decStr hinv, Option.map_some', parseDigits_natToChars, e1, e2]

theorem durChars_timeRender {dys hrs m : Int} {d : Dec} (hinv : DecInv d)
    (hd : 0 ≤ dys) (hh : 0 ≤ hrs) (hm : 0 ≤ m) :
    durChars (timeRender dys hrs m d) =
      some ((dys : ℚ) * 86400 + (hrs : ℚ) * 3600 + (m : ℚ) * 60 + decQ d) := by
  have hsp1 : (' ' : Char) ∉ natToChars hrs.toNat := not_mem_natToChars _ (by left; decide)
  have hsp2 : (' ' : Char) ∉ natToChars m.toNat := not_mem_natToChars _ (by left; decide)
  have hsp3 : (' ' : Char) ∉ decStr d := not_mem_decStr hinv (by left; decide) (by decide)
  have hbody : (' ' : Char) ∉
      intToChars hrs ++ (':' :: (intToChars m ++ (':' :: decStr d))) := by
    rw [intToChars_nonneg hh, intToChars_nonneg hm]
    intro hmem
    rcases List.mem_append.mp hmem with h | h
    · exact hsp1 h
    · simp only [List.mem_cons] at h
      rcases h with h | h
      · exact absurd h.symm (by decide)
      · rcases List.mem_append.mp h with h | h
        · exact hsp2 h
        · simp only [List.mem_cons] at h
          rcases h with h | h
          · exact absurd h.symm (by decide)
          · exact hsp3 h
  rcases lt_or_eq_of_le hd with hpos | hzero
  · rw [timeRender, if_pos hpos]
    have hds : (' ' : Char) ∉ intToChars dys := by
      rw [intToChars_nonneg (le_of_lt hpos)]
      exact not_mem_natToChars _ (by left; decide)
    have hsplit : splitOnChar ' '
        ((intToChars dys ++ [' ']) ++
          (intToChars hrs ++ (':' :: (intToChars m ++ (':' :: decStr d))))) =
        [intToChars dys, intToChars hrs ++ (':' :: (intToChars m ++ (':' :: decStr d)))] := by
      rw [List.append_assoc, List.singleton_append, splitOnChar_sep _ hds,
        splitOnChar_of_not_mem hbody]
    rw [durChars, hsplit]
    have h1 : intToChars dys ≠ [] := by
      rw [intToChars_nonneg (le_of_lt hpos)]; exact natToChars_ne_nil _
    have h2 : (intToChars dys).all isDig = true := by
      rw [intToChars_nonneg (le_of_lt hpos)]
      exact List.all_eq_true.mpr fun c hc => mem_natToChars_isDig hc
    show (if intToChars dys ≠ [] ∧ (intToChars dys).all isDig = true then
        timeBody ((parseDigits (intToChars dys) : ℚ))
          (intToChars hrs ++ (':' :: (intToChars m ++ (':' :: decStr d))))
      else none) = _
    rw [if_pos ⟨h1, h2⟩, timeBody_render _ hinv hh hm]
    have e3 : ((parseDigits (intToChars dys) : ℚ)) = ((dys : ℚ)) := by
      rw [intToChars_nonneg (le_of_lt hpos), parseDigits_natToChars]
      exact_mod_cast Int.toNat_of_nonneg (le_of_lt hpos)
    rw [e3]
  · rw [timeRender, if_neg (by omega)]
    have hsplit : splitOnChar ' '
        ([] ++ (intToChars hrs ++ (':' :: (intToChars m ++ (':' :: decStr d))))) =
        [intToChars hrs ++ (':' :: (intToChars m ++ (':' :: decStr d)))] := by
      rw [List.nil_append, splitOnChar_of_not_mem hbody]
    rw [durChars, hsplit]
    show timeBody 0 (intToChars hrs ++ (':' :: (intToChars m ++ (':' :: decStr d)))) = _
    rw [timeBody_render _ hinv hh hm, ← hzero]
    norm_num

theorem fdiv24_nonneg {h : Int} (h0 : 0 ≤ h) : 0 ≤ h.fdiv 24 := by
  rw [Int.fdiv_eq_ediv _ (by norm_num)]
  exact Int.ediv_nonneg h0 (by norm_num)

theorem fmod24_nonneg {h : Int} (h0 : 0 ≤ h) : 0 ≤ h.fmod 24 :=
  Int.fmod_nonneg h0 (by norm_num)

theorem fmod24_lt (h : Int) : h.fmod 24 < 24 := Int.fmod_lt_of_pos h (by norm_num)

theorem fdiv24_pos_iff {h : Int} (h0 : 0 ≤ h) : 0 < h.fdiv 24 ↔ 24 ≤ h := by
  have hsum := Int.fdiv_add_fmod h 24
  have h1 := fmod24_nonneg h0
  have h2 := fmod24_lt h
  omega

/-- Claim C7: for every accepted input of the form `H+:MM:SS[,.]fff` with nonnegative
numeric fields, `parse_time` returns the rendering `[D ]H:M:S[.f]` with
`D = hours // 24` (emitted exactly when hours ≥ 24) and hour component `hours % 24`,
and this output denotes the same duration `hours*3600 + minutes*60 + seconds` as the
input fields (with either `','` or `'.'` accepted as the decimal separator, both
normalizing to `'.'`). -/
theorem parse_time_normalized (s : List Char) (h m : Int) (d : Dec)
    (ht : timeToks s = .ok (h, m, d)) (h0 : 0 ≤ h) (m0 : 0 ≤ m) :
    parse_time s = .ok (timeRender (h.fdiv 24) (h.fmod 24) m d) ∧
    durChars (timeRender (h.fdiv 24) (h.fmod 24) m d) =
      some ((h : ℚ) * 3600 + (m : ℚ) * 60 + decQ d) ∧
    ((' ' ∈ timeRender (h.fdiv 24) (h.fmod 24) m d) ↔ 24 ≤ h) := by
  have hinv : DecInv d := timeToks_inv ht
  have hd0 : 0 ≤ h.fdiv 24 := fdiv24_nonneg h0
  have hm0 : 0 ≤ h.fmod 24 := fmod24_nonneg h0
  refine ⟨by rw [parse_time, ht], ?_, ?_⟩
  · rw [durChars_timeRender hinv hd0 hm0 m0]
    have hsum := congrArg (fun z : Int => (z : ℚ)) (Int.fdiv_add_fmod h 24)
    push_cast at hsum
    congr 1
    linarith
  · have hbody : (' ' : Char) ∉
        intToChars (h.fmod 24) ++ (':' :: (intToChars m ++ (':' :: decStr d))) := by
      rw [intToChars_nonneg hm0, intToChars_nonneg m0]
      intro hmem
      rcases List.mem_append.mp hmem with hx | hx
      · exact not_mem_natToChars _ (by left; decide) hx
      · simp only [List.mem_cons] at hx
        rcases hx with hx | hx
        · exact absurd hx.symm (by decide)
        · rcases List.mem_append.mp hx with hx | hx
          · exact not_mem_natToChars _ (by left; decide) hx
          · simp only [List.mem_cons] at hx
            rcases hx with hx | hx
            · exact absurd hx.symm (by decide)
            · exact not_mem_decStr hinv (by left; decide) (by decide) hx
    constructor
    · intro hmem
      by_contra hlt
      have hz : h.fdiv 24 = 0 := by
        have := (fdiv24_pos_iff h0).not.mpr hlt
        omega
      rw [timeRender, hz, if_neg (by norm_num), List.nil_append] at hmem
      exact hbody hmem
    · intro h24
      have hp : 0 < h.fdiv 24 := (fdiv24_pos_iff h0).mpr h24
      rw [timeRender, if_pos hp]
      simp

/-- Witness for C7 at the spec's two examples: `"25:10:30,5"` parses to
`"1 1:10:30.5"` (the 1-day-carrying form, worth 90630.5 seconds, i.e.
"1 day, 1:10:30.5"), and `"3:05:09.2"` parses to `"3:5:9.2"` (worth 11109.2
seconds, equivalent to "3:05:09.2"). -/
theorem parse_time_normalized_witness :
    parse_time (strL "25:10:30,5") = .ok (strL "1 1:10:30.5") ∧
    durChars (strL "1 1:10:30.5") = some (90630 + (1 : ℚ)/2) ∧
    parse_time (strL "3:05:09.2") = .ok (strL "3:5:9.2") ∧
    durChars (strL "3:5:9.2") = some (11109 + (1 : ℚ)/5) := by
  have h1 := parse_time_normalized (strL "25:10:30,5") 25 10 ⟨30, some ['5']⟩
    (by decide) (by decide) (by decide)
  have h2 := parse_time_normalized (strL "3:05:09.2") 3 5 ⟨9, some ['2']⟩
    (by decide) (by decide) (by decide)
  have e1 : timeRender ((25 : Int).fdiv 24) ((25 : Int).fmod 24) 10 ⟨30, some ['5']⟩ =
      strL "1 1:10:30.5" := by decide
  have e2 : timeRender ((3 : Int).fdiv 24) ((3 : Int).fmod 24) 5 ⟨9, some ['2']⟩ =
      strL "3:5:9.2" := by decide
  refine ⟨by rw [← e1]; exact h1.1, ?_, by rw [← e2]; exact h2.1, ?_⟩
  · rw [← e1, h1.2.1]
    norm_num [decQ, parseDigits, show ('5' : Char).toNat = 53 from rfl]
  · rw [← e2, h2.2.1]
    norm_num [decQ, parseDigits, show ('2' : Char).toNat = 50 from rfl]

/-- Claim C8 counterexample: `parse_time` accepts `"25:10:30,5"` and returns
`"1 1:10:30.5"`, but applying `parse_time` to that output fails with `ValueError`
(Python `int("1 1")`), so `parse_time` is not idempotent on its own output. -/
theorem parse_time_not_idempotent :
    parse_time (strL "25:10:30,5") = .ok (strL "1 1:10:30.5") ∧
    parse_time (strL "1 1:10:30.5") = .error .valueError := by decide

theorem timeToks_render0 {h m : Int} {d : Dec} (hinv : DecInv d)
    (h0 : 0 ≤ h) (m0 : 0 ≤ m) :
    timeToks (intToChars h ++ (':' :: (intToChars m ++ (':' :: decStr d)))) =
      .ok (h, m, d) := by
  have hc1 : (':' : Char) ∉ intToChars h := by
    rw [intToChars_nonneg h0]; exact not_mem_natToChars _ (by right; decide)
  have hc2 : (':' : Char) ∉ intToChars m := by
    rw [intToChars_nonneg m0]; exact not_mem_natToChars _ (by right; decide)
  have hc3 : (':' : Char) ∉ decStr d := not_mem_decStr hinv (by right; decide) (by decide)
  have hsplit : splitOnChar ':'
      (intToChars h ++ (':' :: (intToChars m ++ (':' :: decStr d)))) =
      [intToChars h, intToChars m, decStr d] := by
    rw [splitOnChar_sep _ hc1, splitOnChar_sep _ hc2, splitOnChar_of_not_mem hc3]
  have hmap : (decStr d).map (fun c => if c = ',' then '.' else c) = decStr d := by
    have hcong : ∀ c ∈ decStr d, (if c = ',' then '.' else c) = c := by
      intro c hc
      rcases mem_decStr_cases hinv hc with hd | hd
      · rw [if_neg (isDig_ne hd ',' (by left; decide))]
      · rw [hd]; decide
    calc (decStr d).map (fun c => if c = ',' then '.' else c)
        = (decStr d).map id := List.map_congr_left hcong
      _ = decStr d := List.map_id _
  simp only [timeToks, hsplit, pyIndex, List.getElem?_cons_zero, List.getElem?_cons_succ,
    pyInt_intToChars h0, pyInt_intToChars m0, hmap, pyDecimal_decStr hinv]

/-- Claim C8 (amended): `parse_time` re-parses its own output and reproduces it
exactly only when the output carries no day part, i.e. for accepted inputs with
`0 ≤ hours < 24` (and nonnegative minutes); when hours ≥ 24 the emitted `"D "`
day component makes re-parsing fail (see the counterexample). -/
theorem parse_time_reparse_no_days (s : List Char) (h m : Int) (d : Dec)
    (ht : timeToks s = .ok (h, m, d)) (h0 : 0 ≤ h) (h24 : h < 24) (m0 : 0 ≤ m) :
    parse_time s = .ok (timeRender 0 h m d) ∧
    parse_time (timeRender 0 h m d) = .ok (timeRender 0 h m d) := by
  have hinv : DecInv d := timeToks_inv ht
  have hfdiv : h.fdiv 24 = 0 := by
    have hsum := Int.fdiv_add_fmod h 24
    have h1 := fmod24_nonneg h0
    have h2 := fmod24_lt h
    have h3 := fdiv24_nonneg h0
    omega
  have hfmod : h.fmod 24 = h := by
    have hsum := Int.fdiv_add_fmod h 24
    rw [hfdiv] at hsum
    omega
  have hshape : timeRender 0 h m d =
      intToChars h ++ (':' :: (intToChars m ++ (':' :: decStr d))) := by
    rw [timeRender, if_neg (by norm_num), List.nil_append]
  constructor
  · rw [parse_time, ht]
    show Except.ok (timeRender (h.fdiv 24) (h.fmod 24) m d) = Except.ok (timeRender 0 h m d)
    rw [hfdiv, hfmod]
  · rw [hshape, parse_time, timeToks_render0 hinv h0 m0]
    show Except.ok (timeRender (h.fdiv 24) (h.fmod 24) m d) =
      Except.ok (intToChars h ++ (':' :: (intToChars m ++ (':' :: decStr d))))
    rw [hfdiv, hfmod, hshape]

/-- Witness for the amended C8 at `"3:05:09.2"`: the output `"3:5:9.2"` re-parses
to itself. -/
theorem parse_time_reparse_no_days_witness :
    parse_time (strL "3:05:09.2") = .ok (strL "3:5:9.2") ∧
    parse_time (strL "3:5:9.2") = .ok (strL "3:5:9.2") := by
  have H := parse_time_reparse_no_days (strL "3:05:09.2") 3 5 ⟨9, some ['2']⟩
    (by decide) (by decide) (by decide) (by decide)
  have e : timeRender 0 3 5 ⟨9, some ['2']⟩ = strL "3:5:9.2" := by decide
  rw [e] at H
  exact H

/-- Row of `words_<lang>` (`DocumentId, SentenceId, WordId, Word`); the `Word` column
holds `node.text`, which may be Python `None`. -/
structure WordRow : Type where
  DocumentId : Int
  SentenceId : Int
  WordId : Int
  Word : Option (List Char)
deriving DecidableEq, Repr

/-- Row of `meta` (`DocumentId, Key, Value`). -/
structure MetaRow : Type where
  DocumentId : Int
  Key : List Char
  Value : List Char
deriving DecidableEq, Repr

/-- Row of `time_<lang>` (`DocumentId, TimeId, StartSentenceId, StartWordId, StartTime,
EndSentenceId, EndWordId, EndTime`). -/
structure TimeRow : Type where
  DocumentId : Int
  TimeId : Int
  StartSentenceId : Int
  StartWordId : Int
  StartTime : List Char
  EndSentenceId : Int
  EndWordId : Int
  EndTime : List Char
deriving DecidableEq, Repr

/-- Natural key of `words_<lang>`: `(DocumentId, SentenceId, WordId)`. -/
def wKey (r : WordRow) : Int × Int × Int := (r.DocumentId, r.SentenceId, r.WordId)

/-- Natural key of `meta`: `(DocumentId, Key)`. -/
def mKey (r : MetaRow) : Int × List Char := (r.DocumentId, r.Key)

/-- Natural key of `time_<lang>`: `(DocumentId, TimeId, StartSentenceId)`. -/
def tKey (r : TimeRow) : Int × Int × Int := (r.DocumentId, r.TimeId, r.StartSentenceId)

/-- Relational semantics of the guarded insert used by all three insert methods:
`INSERT INTO t SELECT <row> FROM (SELECT 0 AS i) AS mutex LEFT JOIN t ON <natural key
columns match> WHERE i=0 AND DocumentId IS NULL` appends the literal row exactly when
no row with the same natural key is already in the table, as one statement. -/
def guardIns {α κ : Type} [DecidableEq κ] (k : α → κ) (t : List α) (r : α) : List α :=
  if ∃ x ∈ t, k x = k r then t else t ++ [r]

/-- Models `DbHandler.insert_table_words`: guarded insert keyed by `(DocumentId, SentenceId, WordId)`. -/
def insert_table_words (t : List WordRow) (r : WordRow) : List WordRow := guardIns wKey t r

/-- Models `DbHandler.insert_table_meta`: guarded insert keyed by `(DocumentId, Key)`. -/
def insert_table_meta (t : List MetaRow) (r : MetaRow) : List MetaRow := guardIns mKey t r

/-- Models `DbHandler.insert_table_time`: guarded insert keyed by
`(DocumentId, TimeId, StartSentenceId)`. -/
def insert_table_time (t : List TimeRow) (r : TimeRow) : List TimeRow := guardIns tKey t r

/-- Number of rows of the table whose natural key equals `key`. -/
def keyCount {α κ : Type} [DecidableEq κ] (k : α → κ) (t : List α) (key : κ) : Nat :=
  t.countP (fun x => decide (k x = key))

section GuardIns

variable {α κ : Type} [DecidableEq κ] (k : α → κ)

theorem guardIns_key_mem (t : List α) (r : α) : ∃ x ∈ guardIns k t r, k x = k r := by
  rw [guardIns]
  split
  next h => exact h
  next h => exact ⟨r, by simp, rfl⟩

theorem guardIns_of_key_mem {t : List α} {r : α} (h : ∃ x ∈ t, k x = k r) :
    guardIns k t r = t := by
  rw [guardIns, if_pos h]

theorem guardIns_mono {t : List α} {s : α} (r : α) (h : ∃ x ∈ t, k x = k s) :
    ∃ x ∈ guardIns k t r, k x = k s := by
  rw [guardIns]
  split
  · exact h
  · obtain ⟨x, hx, he⟩ := h
    exact ⟨x, by simp [hx], he⟩

theorem guardIns_idem (t : List α) (r : α) :
    guardIns k (guardIns k t r) r = guardIns k t r :=
  guardIns_of_key_mem k (guardIns_key_mem k t r)

theorem keyCount_guardIns (t : List α) (r : α) :
    keyCount k (guardIns k t r) (k r) =
      if keyCount k t (k r) = 0 then 1 else keyCount k t (k r) := by
  rw [guardIns]
  by_cases h : ∃ x ∈ t, k x = k r
  · rw [if_pos h]
    have hne : keyCount k t (k r) ≠ 0 := by
      obtain ⟨x, hx, he⟩ := h
      have hpos : 0 < List.countP (fun x => decide (k x = k r)) t :=
        List.countP_pos_iff.mpr ⟨x, hx, by simp [he]⟩
      rw [keyCount]
      omega
    rw [if_neg hne]
  · rw [if_neg h]
    have h0 : keyCount k t (k r) = 0 := by
      rw [keyCount, List.countP_eq_zero]
      intro a ha
      simp only [decide_eq_true_eq]
      exact fun he => h ⟨a, ha, he⟩
    rw [if_pos h0, keyCount, List.countP_append]
    have h1 : List.countP (fun x => decide (k x = k r)) [r] = 1 := by
      simp [List.countP_cons]
    rw [h1]
    rw [keyCount] at h0
    omega

theorem guardIns_fold_mono (S : List α) {t : List α} {s : α}
    (h : ∃ x ∈ t, k x = k s) : ∃ x ∈ List.foldl (guardIns k) t S, k x = k s := by
  induction S generalizing t with
  | nil => simpa using h
  | cons a S ih => exact ih (guardIns_mono k a h)

theorem guardIns_fold_key_mem (S : List α) (t : List α) {r : α} (hr : r ∈ S) :
    ∃ x ∈ List.foldl (guardIns k) t S, k x = k r := by
  induction S generalizing t with
  | nil => simp at hr
  | cons a S ih =>
    rw [List.foldl_cons]
    rcases List.mem_cons.mp hr with he | hm
    · subst he
      exact guardIns_fold_mono k S (guardIns_key_mem k t r)
    · exact ih _ hm

theorem guardIns_fold_fixed (S : List α) {T : List α}
    (h : ∀ r ∈ S, ∃ x ∈ T, k x = k r) : List.foldl (guardIns k) T S = T := by
  induction S with
  | nil => rfl
  | cons a S ih =>
    rw [List.foldl_cons, guardIns_of_key_mem k (h a (by simp))]
    exact ih fun r hr => h r (by simp [hr])

theorem guardIns_fold_twice (t : List α) (S : List α) :
    List.foldl (guardIns k) (List.foldl (guardIns k) t S) S =
      List.foldl (guardIns k) t S :=
  guardIns_fold_fixed k S fun _ hr => guardIns_fold_key_mem k S t hr

end GuardIns

/-- Claim C1: each insert operation is idempotent on its natural key — re-inserting a
row whose key is present leaves the table unchanged and raises no error; when the table
held at most one row with that key, exactly one row with it remains after repeated
inserts; and replaying an identical sequence of inserts leaves every table (hence its
row count) unchanged. -/
theorem inserts_idempotent :
    (∀ t r, insert_table_words (insert_table_words t r) r = insert_table_words t r ∧
      (keyCount wKey t (wKey r) ≤ 1 →
        keyCount wKey (insert_table_words (insert_table_words t r) r) (wKey r) = 1)) ∧
    (∀ t S, List.foldl insert_table_words (List.foldl insert_table_words t S) S =
      List.foldl insert_table_words t S) ∧
    (∀ t r, insert_table_meta (insert_table_meta t r) r = insert_table_meta t r ∧
      (keyCount mKey t (mKey r) ≤ 1 →
        keyCount mKey (insert_table_meta (insert_table_meta t r) r) (mKey r) = 1)) ∧
    (∀ t S, List.foldl insert_table_meta (List.foldl insert_table_meta t S) S =
      List.foldl insert_table_meta t S) ∧
    (∀ t r, insert_table_time (insert_table_time t r) r = insert_table_time t r ∧
      (keyCount tKey t (tKey r) ≤ 1 →
        keyCount tKey (insert_table_time (insert_table_time t r) r) (tKey r) = 1)) ∧
    (∀ t S, List.foldl insert_table_time (List.foldl insert_table_time t S) S =
      List.foldl insert_table_time t S) := by
  refine ⟨fun t r => ⟨guardIns_idem wKey t r, ?_⟩,
    fun t S => guardIns_fold_twice wKey t S,
    fun t r => ⟨guardIns_idem mKey t r, ?_⟩,
    fun t S => guardIns_fold_twice mKey t S,
    fun t r => ⟨guardIns_idem tKey t r, ?_⟩,
    fun t S => guardIns_fold_twice tKey t S⟩
  · intro hle
    show keyCount wKey (guardIns wKey (guardIns wKey t r) r) (wKey r) = 1
    rw [guardIns_idem, keyCount_guardIns]
    split <;> omega
  · intro hle
    show keyCount mKey (guardIns mKey (guardIns mKey t r) r) (mKey r) = 1
    rw [guardIns_idem, keyCount_guardIns]
    split <;> omega
  · intro hle
    show keyCount tKey (guardIns tKey (guardIns tKey t r) r) (tKey r) = 1
    rw [guardIns_idem, keyCount_guardIns]
    split <;> omega

/-- Sample word row used by witnesses. -/
def wRow0 : WordRow := ⟨1, 2, 3, some (strL "hi")⟩

/-- Sample meta row used by witnesses. -/
def mRow0 : MetaRow := ⟨1, strL "title", strL "Foo"⟩

/-- Sample time row used by witnesses. -/
def tRow0 : TimeRow := ⟨1, 4, 2, 3, strL "0:0:1.000", 2, 5, strL "0:0:2.500"⟩

/-- Witness for C1 on concrete rows and an empty table. -/
theorem inserts_idempotent_witness :
    insert_table_words (insert_table_words [] wRow0) wRow0 = insert_table_words [] wRow0 ∧
    keyCount wKey (insert_table_words (insert_table_words [] wRow0) wRow0) (wKey wRow0) = 1 ∧
    List.foldl insert_table_meta (List.foldl insert_table_meta [] [mRow0]) [mRow0] =
      List.foldl insert_table_meta [] [mRow0] ∧
    insert_table_time (insert_table_time [] tRow0) tRow0 = insert_table_time [] tRow0 :=
  ⟨(inserts_idempotent.1 [] wRow0).1,
    (inserts_idempotent.1 [] wRow0).2 (by decide),
    inserts_idempotent.2.2.2.1 [] [mRow0],
    (inserts_idempotent.2.2.2.2.1 [] tRow0).1⟩

/-- A database catalog, abstracted as the list of table names present;
`is_table_present` is the existence check the handler runs before any DDL. -/
def is_table_present (env : List (List Char)) (name : List Char) : Bool :=
  env.contains name

/-- A DDL statement issued by the schema bootstrap. -/
inductive DdlStmt : Type where
  | createTable (name : List Char)
  | alterAddPK (name : List Char)
deriving DecidableEq, Repr

/-- Models `DbHandler.ensure_table_words`: the DDL statements issued — none when
`words_<lang>` is present, otherwise `CREATE TABLE` then `ALTER TABLE … ADD PRIMARY KEY`. -/
def ensure_table_words (env : List (List Char)) (lang : List Char) : List DdlStmt :=
  if is_table_present env (strL "words_" ++ lang) then []
  else [.createTable (strL "words_" ++ lang), .alterAddPK (strL "words_" ++ lang)]

/-- Models `DbHandler.ensure_table_meta`: the DDL statements issued for table `meta`. -/
def ensure_table_meta (env : List (List Char)) : List DdlStmt :=
  if is_table_present env (strL "meta") then []
  else [.createTable (strL "meta"), .alterAddPK (strL "meta")]

/-- Models `DbHandler.ensure_table_time`: the DDL statements issued for `time_<lang>`. -/
def ensure_table_time (env : List (List Char)) (lang : List Char) : List DdlStmt :=
  if is_table_present env (strL "time_" ++ lang) then []
  else [.createTable (strL "time_" ++ lang), .alterAddPK (strL "time_" ++ lang)]

/-- Claim C9: when all three tables already exist, the schema bootstrap issues no DDL
statement at all (only the existence checks), so it is safe on every startup. -/
theorem ensure_tables_noop (env : List (List Char)) (lang : List Char)
    (hw : is_table_present env (strL "words_" ++ lang) = true)
    (hm : is_table_present env (strL "meta") = true)
    (ht : is_table_present env (strL "time_" ++ lang) = true) :
    ensure_table_words env lang = [] ∧ ensure_table_meta env = [] ∧
      ensure_table_time env lang = [] := by
  rw [ensure_table_words, if_pos hw, ensure_table_meta, if_pos hm,
    ensure_table_time, if_pos ht]
  exact ⟨rfl, rfl, rfl⟩

/-- Witness for C9 on a catalog already holding the three tables for language `en`. -/
theorem ensure_tables_noop_witness :
    ensure_table_words [strL "words_en", strL "meta", strL "time_en"] (strL "en") = [] ∧
    ensure_table_meta [strL "words_en", strL "meta", strL "time_en"] = [] ∧
    ensure_table_time [strL "words_en", strL "meta", strL "time_en"] (strL "en") = [] :=
  ensure_tables_noop [strL "words_en", strL "meta", strL "time_en"] (strL "en")
    (by decide) (by decide) (by decide)

/-- The mutable fields of `DbHandler` set in `__init__`: the traversal state, owned by
the single handler object for the whole run. -/
structure St : Type where
  document_id : Int
  s_id : Int
  w_real_id : Int
  time_id : Int
  start_time : List Char
  start_s_id : Int
  start_w_id : Int
  end_time : List Char
  end_s_id : Int
  end_w_id : Int
deriving DecidableEq, Repr

/-- Initial handler state from `DbHandler.__init__`: ids `-1`, time strings empty. -/
def stInit : St := ⟨-1, -1, -1, -1, [], -1, -1, [], -1, -1⟩

/-- The three tables written by the import. -/
structure Tables : Type where
  words : List WordRow
  meta : List MetaRow
  time : List TimeRow
deriving DecidableEq, Repr

/-- Empty database. -/
def tablesInit : Tables := ⟨[], [], []⟩

/-- An XML element as the traversal consumes it: tag, the `id` and `value` attributes
(absent ⇒ `KeyError` on access), text content (Python `None` or a string), and child
elements in document order. -/
inductive XmlNode : Type where
  | node (tag : List Char) (idA valueA text : Option (List Char))
      (children : List XmlNode) : XmlNode

/-- Models `DbHandler.write_node`: one step of the traversal on the current node, updating
handler state and tables.  Any exception in a node occurs before that node's insert,
and after an exception the whole run aborts, so returning the pre-node state on error
is observationally faithful to the partially-updated Python object. -/
def write_node (st : St) (tabs : Tables) (tag : List Char)
    (idA valueA text : Option (List Char)) (parent_path : List Char) :
    Except Err (St × Tables) :=
  if tag = strL "document" then
    match pyAttr idA with
    | .error e => .error e
    | .ok i =>
      match pyInt i with
      | .error e => .error e
      | .ok v => .ok ({st with document_id := v}, tabs)
  else if tag = strL "time" then
    match pyAttr idA with
    | .error e => .error e
    | .ok i =>
      match pyLast i with
      | .error e => .error e
      | .ok c =>
        if c = 'S' then
          match pyInt (slice1m1 i) with
          | .error e => .error e
          | .ok t =>
            match pyAttr valueA with
            | .error e => .error e
            | .ok v =>
              match parse_time v with
              | .error e => .error e
              | .ok stime => .ok ({st with time_id := t, start_time := stime}, tabs)
        else
          match pyAttr valueA with
          | .error e => .error e
          | .ok v =>
            match parse_time v with
            | .error e => .error e
            | .ok etime =>
              .ok ({st with end_time := etime, start_s_id := -1},
                {tabs with time := (insert_table_time tabs.time
                  ⟨st.document_id, st.time_id, st.start_s_id, st.start_w_id,
                    st.start_time, st.s_id, st.w_real_id, etime⟩)})
  else if tag = strL "s" then
    match pyAttr idA with
    | .error e => .error e
    | .ok i =>
      match pyInt i with
      | .error e => .error e
      | .ok v => .ok ({st with s_id := v}, tabs)
  else if tag = strL "w" then
    match pyAttr idA with
    | .error e => .error e
    | .ok i =>
      match pyIndex (splitOnChar '.' i) 0 with
      | .error e => .error e
      | .ok t0 =>
        match pyInt t0 with
        | .error e => .error e
        | .ok sid =>
          match pyIndex (splitOnChar '.' i) 1 with
          | .error e => .error e
          | .ok t1 =>
            match pyInt t1 with
            | .error e => .error e
            | .ok wid =>
              let tabs1 := {tabs with words := (insert_table_words tabs.words
                ⟨st.document_id, sid, wid, text⟩)}
              let st1 := {st with s_id := sid, w_real_id := wid}
              if st1.start_s_id < 0 then
                .ok ({st1 with start_s_id := sid, start_w_id := wid}, tabs1)
              else .ok (st1, tabs1)
  else if (strL "meta.").isPrefixOf parent_path then
    match text with
    | some tx =>
      if tx ≠ [] then
        .ok (st, {tabs with meta := (insert_table_meta tabs.meta
          ⟨st.document_id, tag, tx⟩)})
      else .ok (st, tabs)
    | none => .ok (st, tabs)
  else .ok (st, tabs)

mutual

/-- Models `pre_order_traversal`: visit the node (via `write_node`), then recurse into the
children with the parent path extended by `'.' ++ this_path`, where the `document` tag
contributes an empty segment.  A raised exception propagates immediately, abandoning
the rest of the walk but keeping the rows already written (each insert is committed as
it happens). -/
def pre_order (st : St) (tabs : Tables) (path : List Char) :
    XmlNode → St × Tables × Option Err
  | .node tag idA valueA text children =>
    match write_node st tabs tag idA valueA text path with
    | .error e => (st, tabs, some e)
    | .ok (st1, tabs1) =>
      pre_order_children st1 tabs1
        (path ++ '.' :: (if tag = strL "document" then [] else tag)) children

/-- Children of a node, visited left to right, stopping at the first exception. -/
def pre_order_children (st : St) (tabs : Tables) (path : List Char) :
    List XmlNode → St × Tables × Option Err
  | [] => (st, tabs, none)
  | c :: cs =>
    match pre_order st tabs path c with
    | (st1, tabs1, none) => pre_order_children st1 tabs1 path cs
    | r => r

end

/-- The per-file loop of `XmlExporter.main`: one handler (one state) for the whole run,
each file's root traversed with the empty parent path; an uncaught exception ends the
run, leaving later files unprocessed. -/
def export_run (st : St) (tabs : Tables) : List XmlNode → St × Tables × Option Err
  | [] => (st, tabs, none)
  | f :: fs =>
    match pre_order st tabs [] f with
    | (st1, tabs1, none) => export_run st1 tabs1 fs
    | r => r

theorem write_node_time_open_eval (st : St) (tabs : Tables) (i v : List Char)
    (text : Option (List Char)) (path : List Char) (t : Int) (stime : List Char)
    (hS : pyLast i = .ok 'S') (ht : pyInt (slice1m1 i) = .ok t)
    (hv : parse_time v = .ok stime) :
    write_node st tabs (strL "time") (some i) (some v) text path =
      .ok ({st with time_id := t, start_time := stime}, tabs) := by
  simp only [write_node.eq_def, pyAttr, hS, ht, hv, if_true,
    if_neg (show ¬(strL "time" = strL "document") by decide),
    if_pos (show strL "time" = strL "time" from rfl),
    if_pos (show ('S' : Char) = 'S' from rfl)]

theorem write_node_time_close_eval (st : St) (tabs : Tables) (i v : List Char)
    (text : Option (List Char)) (path : List Char) (c : Char) (etime : List Char)
    (hc : pyLast i = .ok c) (hS : c ≠ 'S') (hv : parse_time v = .ok etime) :
    write_node st tabs (strL "time") (some i) (some v) text path =
      .ok ({st with end_time := etime, start_s_id := -1},
        {tabs with time := (insert_table_time tabs.time
          ⟨st.document_id, st.time_id, st.start_s_id, st.start_w_id,
            st.start_time, st.s_id, st.w_real_id, etime⟩)}) := by
  simp only [write_node.eq_def, pyAttr, hc, hv, if_true,
    if_neg (show ¬(strL "time" = strL "document") by decide),
    if_pos (show strL "time" = strL "time" from rfl),
    if_neg hS]

theorem write_node_w_eval (st : St) (tabs : Tables) (i : List Char)
    (valueA text : Option (List Char)) (path : List Char) (t0 t1 : List Char)
    (sid wid : Int)
    (h0 : pyIndex (splitOnChar '.' i) 0 = .ok t0) (hs : pyInt t0 = .ok sid)
    (h1 : pyIndex (splitOnChar '.' i) 1 = .ok t1) (hw : pyInt t1 = .ok wid) :
    write_node st tabs (strL "w") (some i) valueA text path =
      .ok ((if st.start_s_id < 0 then
          {st with s_id := sid, w_real_id := wid, start_s_id := sid, start_w_id := wid}
        else {st with s_id := sid, w_real_id := wid}),
        {tabs with words := (insert_table_words tabs.words
          ⟨st.document_id, sid, wid, text⟩)}) := by
  simp only [write_node.eq_def, pyAttr, h0, hs, h1, hw, if_true,
    if_neg (show ¬(strL "w" = strL "document") by decide),
    if_neg (show ¬(strL "w" = strL "time") by decide),
    if_neg (show ¬(strL "w" = strL "s") by decide),
    if_pos (show strL "w" = strL "w" from rfl)]
  by_cases hlt : st.start_s_id < 0
  · rw [if_pos hlt, if_pos hlt]
  · rw [if_neg hlt, if_neg hlt]

theorem write_node_other_time {st : St} {tabs : Tables} {tag : List Char}
    {idA valueA text : Option (List Char)} {path : List Char} {st' : St} {tabs' : Tables}
    (hok : write_node st tabs tag idA valueA text path = .ok (st', tabs'))
    (hne : tag ≠ strL "time") : tabs'.time = tabs.time := by
  rw [write_node.eq_def] at hok
  by_cases h1 : tag = strL "document"
  · rw [if_pos h1] at hok
    cases hA : pyAttr idA with
    | error e => rw [hA] at hok; simp at hok
    | ok i =>
      rw [hA] at hok
      simp only [] at hok
      cases hI : pyInt i with
      | error e => rw [hI] at hok; simp at hok
      | ok v =>
        rw [hI] at hok
        simp only [Except.ok.injEq, Prod.mk.injEq] at hok
        rw [← hok.2]
  · rw [if_neg h1, if_neg hne] at hok
    by_cases h3 : tag = strL "s"
    · rw [if_pos h3] at hok
      cases hA : pyAttr idA with
      | error e => rw [hA] at hok; simp at hok
      | ok i =>
        rw [hA] at hok
        simp only [] at hok
        cases hI : pyInt i with
        | error e => rw [hI] at hok; simp at hok
        | ok v =>
          rw [hI] at hok
          simp only [Except.ok.injEq, Prod.mk.injEq] at hok
          rw [← hok.2]
    · rw [if_neg h3] at hok
      by_cases h4 : tag = strL "w"
      · rw [if_pos h4] at hok
        cases hA : pyAttr idA with
        | error e => rw [hA] at hok; simp at hok
        | ok i =>
          rw [hA] at hok
          simp only [] at hok
          cases hx0 : pyIndex (splitOnChar '.' i) 0 with
          | error e => rw [hx0] at hok; simp at hok
          | ok t0 =>
            rw [hx0] at hok
            simp only [] at hok
            cases hs0 : pyInt t0 with
            | error e => rw [hs0] at hok; simp at hok
            | ok sid =>
              rw [hs0] at hok
              simp only [] at hok
              cases hx1 : pyIndex (splitOnChar '.' i) 1 with
              | error e => rw [hx1] at hok; simp at hok
              | ok t1 =>
                rw [hx1] at hok
                simp only [] at hok
                cases hs1 : pyInt t1 with
                | error e => rw [hs1] at hok; simp at hok
                | ok wid =>
                  rw [hs1] at hok
                  simp only [] at hok
                  split at hok <;>
                    (simp only [Except.ok.injEq, Prod.mk.injEq] at hok; rw [← hok.2])
      · rw [if_neg h4] at hok
        split at hok
        · cases text with
          | none =>
            simp only [] at hok
            simp only [Except.ok.injEq, Prod.mk.injEq] at hok
            rw [← hok.2]
          | some tx =>
            simp only [] at hok
            split at hok <;>
              (simp only [Except.ok.injEq, Prod.mk.injEq] at hok; rw [← hok.2])
        · simp only [Except.ok.injEq, Prod.mk.injEq] at hok
          rw [← hok.2]

theorem export_run_cons_error (st : St) (tabs : Tables) (f : XmlNode) (fs : List XmlNode)
    (st1 : St) (tabs1 : Tables) (e : Err)
    (h : pre_order st tabs [] f = (st1, tabs1, some e)) :
    export_run st tabs (f :: fs) = (st1, tabs1, some e) := by
  rw [export_run, h]

theorem export_run_cons_ok (st : St) (tabs : Tables) (f : XmlNode) (fs : List XmlNode)
    (st1 : St) (tabs1 : Tables)
    (h : pre_order st tabs [] f = (st1, tabs1, none)) :
    export_run st tabs (f :: fs) = export_run st1 tabs1 fs := by
  rw [export_run, h]

theorem pre_order_node_ok {st : St} {tabs : Tables} {path tag : List Char}
    {idA valueA text : Option (List Char)} {children : List XmlNode}
    {st1 : St} {tabs1 : Tables}
    (h : write_node st tabs tag idA valueA text path = .ok (st1, tabs1)) :
    pre_order st tabs path (.node tag idA valueA text children) =
      pre_order_children st1 tabs1
        (path ++ '.' :: (if tag = strL "document" then [] else tag)) children := by
  rw [pre_order, h]

theorem pre_order_children_cons_ok {st : St} {tabs : Tables} {path : List Char}
    {c : XmlNode} {cs : List XmlNode} {st1 : St} {tabs1 : Tables}
    (h : pre_order st tabs path c = (st1, tabs1, none)) :
    pre_order_children st tabs path (c :: cs) = pre_order_children st1 tabs1 path cs := by
  rw [pre_order_children, h]

theorem pre_order_children_nil (st : St) (tabs : Tables) (path : List Char) :
    pre_order_children st tabs path [] = (st, tabs, none) := rfl

/-- Word node `<w id="..">text</w>`. -/
def wNode (idv txt : String) : XmlNode :=
  .node (strL "w") (some (strL idv)) none (some (strL txt)) []

/-- Time node `<time id=".." value=".." />`. -/
def timeNode (idv val : String) : XmlNode :=
  .node (strL "time") (some (strL idv)) (some (strL val)) none []

/-- The C2 scenario input with the claim's literal time ids `1S` / `1E`. -/
def tree42 : XmlNode :=
  .node (strL "document") (some (strL "42")) none none
    [.node (strL "s") (some (strL "1")) none none
      [wNode "1.1" "Hello", wNode "1.2" "world",
       timeNode "1S" "0:00:01,000", timeNode "1E" "0:00:02,500"]]

/-- The C2 scenario input with time ids in the shape the code expects (`T1S` / `T1E`). -/
def tree42T : XmlNode :=
  .node (strL "document") (some (strL "42")) none none
    [.node (strL "s") (some (strL "1")) none none
      [wNode "1.1" "Hello", wNode "1.2" "world",
       timeNode "T1S" "0:00:01,000", timeNode "T1E" "0:00:02,500"]]

/-- Claim C2 counterexample: on the claim's literal scenario (time ids `"1S"`, `"1E"`)
the code raises `ValueError` — the open time node computes `int(id[1:-1]) = int("")`,
since the slice drops the FIRST character as well as the suffix — so no TimeSpan row is
produced at all (the two Word rows are written before the failure). -/
theorem scenario_plain_ids_fails :
    (pre_order stInit tablesInit [] tree42).2.1.words =
      [⟨42, 1, 1, some (strL "Hello")⟩, ⟨42, 1, 2, some (strL "world")⟩] ∧
    (pre_order stInit tablesInit [] tree42).2.1.time = [] ∧
    (pre_order stInit tablesInit [] tree42).2.2 = some Err.valueError := by decide

/-- Claim C2 (amended): with time ids of the real input shape `"T1S"`/`"T1E"` — the code
records `time_id = int(id[1:-1])`, dropping the first character along with the `S`/`E`
suffix, so the literal id `"1S"` raises instead (see the counterexample) — the traversal
produces exactly the Word rows `(42,1,1,"Hello")`, `(42,1,2,"world")` and exactly the
TimeSpan row `(42,1,1,1,"0:0:1.000",1,2,"0:0:2.500")`, whose time strings denote 1.0 s
and 2.5 s, duration-equivalent to the claim's `"0:00:01.000"` and `"0:00:02.500"`. -/
theorem scenario_T_ids :
    (pre_order stInit tablesInit [] tree42T).2.1.words =
      [⟨42, 1, 1, some (strL "Hello")⟩, ⟨42, 1, 2, some (strL "world")⟩] ∧
    (pre_order stInit tablesInit [] tree42T).2.1.time =
      [⟨42, 1, 1, 1, strL "0:0:1.000", 1, 2, strL "0:0:2.500"⟩] ∧
    (pre_order stInit tablesInit [] tree42T).2.1.meta = [] ∧
    (pre_order stInit tablesInit [] tree42T).2.2 = none ∧
    durChars (strL "0:0:1.000") = some 1 ∧
    durChars (strL "0:0:2.500") = some ((5 : ℚ)/2) := by
  have hinv1 : DecInv (⟨1, some (strL "000")⟩ : Dec) := by
    intro f hf
    injection hf with h
    rw [← h]
    exact ⟨by decide, by decide⟩
  have hinv2 : DecInv (⟨2, some (strL "500")⟩ : Dec) := by
    intro f hf
    injection hf with h
    rw [← h]
    exact ⟨by decide, by decide⟩
  have e1 : strL "0:0:1.000" = timeRender 0 0 0 ⟨1, some (strL "000")⟩ := by decide
  have e2 : strL "0:0:2.500" = timeRender 0 0 0 ⟨2, some (strL "500")⟩ := by decide
  have p1 : parseDigits (strL "000") = 0 := by decide
  have p2 : (strL "000").length = 3 := by decide
  have p3 : parseDigits (strL "500") = 500 := by decide
  have p4 : (strL "500").length = 3 := by decide
  refine ⟨by decide, by decide, by decide, by decide, ?_, ?_⟩
  · rw [e1, durChars_timeRender hinv1 le_rfl le_rfl le_rfl]
    simp only [decQ, p1, p2]
    norm_num
  · rw [e2, durChars_timeRender hinv2 le_rfl le_rfl le_rfl]
    simp only [decQ, p3, p4]
    norm_num

/-- The C3 input: `<document id="7"><meta><title>Foo</title></meta></document>`. -/
def tree7 : XmlNode :=
  .node (strL "document") (some (strL "7")) none none
    [.node (strL "meta") none none none
      [.node (strL "title") none none (some (strL "Foo")) []]]

/-- Claim C3 (code bug): the traversal of `<document id=7><meta><title>Foo</title></meta>`
completes without error yet writes NO MetaEntry row.  Every parent path the walk builds
starts with `'.'` (children of the root get path `"."`, the `title` node gets `"..meta"`),
so the guard `parent_path.startswith('meta.')` in `write_node` can never be true and
`insert_table_meta` is dead code — contradicting the claimed row `(7, "title", "Foo")`. -/
theorem meta_not_extracted :
    (pre_order stInit tablesInit [] tree7).2.1.meta = [] ∧
    (pre_order stInit tablesInit [] tree7).2.2 = none ∧
    ¬ (strL "meta.").isPrefixOf (strL "..meta") := by decide

/-- First sentence of the C4 input: a properly paired `T1S`/`T1E` span. -/
def sub1C4 : XmlNode :=
  .node (strL "s") (some (strL "1")) none none
    [wNode "1.1" "a", timeNode "T1S" "0:00:01,000", timeNode "T1E" "0:00:02,500"]

/-- Second sentence of the C4 input: a close event `T2E` with no preceding open. -/
def sub2C4 : XmlNode :=
  .node (strL "s") (some (strL "2")) none none
    [wNode "2.1" "b", timeNode "T2E" "0:00:03,000"]

/-- The C4 input: a paired `T1S`/`T1E` span in sentence 1, then in sentence 2 a close
event `T2E` with no preceding open event. -/
def treeC4 : XmlNode :=
  .node (strL "document") (some (strL "42")) none none [sub1C4, sub2C4]

/-- Handler state after sentence 1 of the C4 input. -/
def stAC4 : St := ⟨42, 1, 1, 1, strL "0:0:1.000", -1, 1, strL "0:0:2.500", -1, -1⟩

/-- Tables after sentence 1 of the C4 input. -/
def tabsAC4 : Tables :=
  ⟨[⟨42, 1, 1, some (strL "a")⟩], [],
   [⟨42, 1, 1, 1, strL "0:0:1.000", 1, 1, strL "0:0:2.500"⟩]⟩

/-- Handler state after sentence 2 of the C4 input. -/
def stBC4 : St := ⟨42, 2, 1, 1, strL "0:0:1.000", -1, 1, strL "0:0:3.000", -1, -1⟩

/-- Tables after sentence 2 of the C4 input: the unmatched close `T2E` has inserted a
second TimeSpan row reusing the stale `time_id` and `start_time`. -/
def tabsBC4 : Tables :=
  ⟨[⟨42, 1, 1, some (strL "a")⟩, ⟨42, 2, 1, some (strL "b")⟩], [],
   [⟨42, 1, 1, 1, strL "0:0:1.000", 1, 1, strL "0:0:2.500"⟩,
    ⟨42, 1, 2, 1, strL "0:0:1.000", 2, 1, strL "0:0:3.000"⟩]⟩

theorem treeC4_eval : pre_order stInit tablesInit [] treeC4 = (stBC4, tabsBC4, none) := by
  have hdoc : write_node stInit tablesInit (strL "document") (some (strL "42"))
      none none [] = .ok ({stInit with document_id := 42}, tablesInit) := by decide
  have hs1 : pre_order {stInit with document_id := 42} tablesInit ['.'] sub1C4 =
      (stAC4, tabsAC4, none) := by decide
  have hs2 : pre_order stAC4 tabsAC4 ['.'] sub2C4 = (stBC4, tabsBC4, none) := by decide
  show pre_order stInit tablesInit []
    (.node (strL "document") (some (strL "42")) none none [sub1C4, sub2C4]) = _
  rw [pre_order_node_ok hdoc]
  show pre_order_children {stInit with document_id := 42} tablesInit ['.']
    [sub1C4, sub2C4] = _
  rw [pre_order_children_cons_ok hs1, pre_order_children_cons_ok hs2,
    pre_order_children_nil]

/-- Claim C4 counterexample: after the paired `T1S`/`T1E` span, the close event `T2E`
with no preceding open event still triggers a TimeSpan insert and a second row is
persisted, reusing the stale `time_id = 1` and `start_time` — the claim that a
close-time event not preceded by a matching open never triggers an insert is false. -/
theorem close_without_open_inserts :
    (pre_order stInit tablesInit [] treeC4).2.1.time =
      [⟨42, 1, 1, 1, strL "0:0:1.000", 1, 1, strL "0:0:2.500"⟩,
       ⟨42, 1, 2, 1, strL "0:0:1.000", 2, 1, strL "0:0:3.000"⟩] ∧
    (pre_order stInit tablesInit [] treeC4).2.2 = none := by
  rw [treeC4_eval]
  exact ⟨rfl, rfl⟩

/-- Claim C4 (amended): an open half (`id` ending in `'S'`) never writes — tables are
returned unchanged; every successfully processed close half writes a TimeSpan assembled
from whatever `time_id` / `start_time` / start-position state is current, with no check
that a matching open was observed; and no node other than a `time` node ever changes
the time table (hence an open half with no close half is never persisted). -/
theorem time_insert_on_close_only :
    (∀ st tabs i v t stime text path,
      pyLast i = .ok 'S' → pyInt (slice1m1 i) = .ok t → parse_time v = .ok stime →
      write_node st tabs (strL "time") (some i) (some v) text path =
        .ok ({st with time_id := t, start_time := stime}, tabs)) ∧
    (∀ st tabs i v c etime text path,
      pyLast i = .ok c → c ≠ 'S' → parse_time v = .ok etime →
      write_node st tabs (strL "time") (some i) (some v) text path =
        .ok ({st with end_time := etime, start_s_id := -1},
          {tabs with time := (insert_table_time tabs.time
            ⟨st.document_id, st.time_id, st.start_s_id, st.start_w_id,
              st.start_time, st.s_id, st.w_real_id, etime⟩)})) ∧
    (∀ st tabs tag idA valueA text path st' tabs',
      write_node st tabs tag idA valueA text path = .ok (st', tabs') →
      tag ≠ strL "time" → tabs'.time = tabs.time) :=
  ⟨fun st tabs i v t stime text path hS ht hv =>
      write_node_time_open_eval st tabs i v text path t stime hS ht hv,
   fun st tabs i v c etime text path hc hS hv =>
      write_node_time_close_eval st tabs i v text path c etime hc hS hv,
   fun _ _ _ _ _ _ _ _ _ hok hne => write_node_other_time hok hne⟩

/-- Witness for C4: a concrete open call leaves the tables unchanged; a concrete close
call from the initial (never-opened) state still inserts a row built from the stale
initial state. -/
theorem time_insert_on_close_only_witness :
    write_node stInit tablesInit (strL "time") (some (strL "T1S"))
      (some (strL "0:00:01,000")) none [] =
      .ok ({stInit with time_id := 1, start_time := strL "0:0:1.000"}, tablesInit) ∧
    write_node stInit tablesInit (strL "time") (some (strL "T1E"))
      (some (strL "0:00:02,500")) none [] =
      .ok ({stInit with end_time := strL "0:0:2.500", start_s_id := -1},
        {tablesInit with time := (insert_table_time tablesInit.time
          ⟨stInit.document_id, stInit.time_id, stInit.start_s_id, stInit.start_w_id,
            stInit.start_time, stInit.s_id, stInit.w_real_id, strL "0:0:2.500"⟩)}) :=
  ⟨time_insert_on_close_only.1 stInit tablesInit (strL "T1S") (strL "0:00:01,000") 1
      (strL "0:0:1.000") none [] (by decide) (by decide) (by decide),
   time_insert_on_close_only.2.1 stInit tablesInit (strL "T1E") (strL "0:00:02,500") 'E'
      (strL "0:0:2.500") none [] (by decide) (by decide) (by decide)⟩

/-- Claim C10: a close event resets only the pending start-sentence marker
(`start_s_id := -1`); `time_id`, `start_time`, `start_w_id` (and the document /
sentence / word ids) keep their previous values, and the written row uses the current
`time_id` and `start_time`; a word node processed while `start_s_id < 0` re-captures
the pending start position from its own parsed sentence/word ids. -/
theorem close_frame_and_recapture :
    (∀ st tabs i v c etime text path st' tabs',
      pyLast i = .ok c → c ≠ 'S' → parse_time v = .ok etime →
      write_node st tabs (strL "time") (some i) (some v) text path = .ok (st', tabs') →
      st'.start_s_id = -1 ∧ st'.time_id = st.time_id ∧ st'.start_time = st.start_time ∧
        st'.start_w_id = st.start_w_id ∧ st'.document_id = st.document_id ∧
        st'.s_id = st.s_id ∧ st'.w_real_id = st.w_real_id ∧
        tabs'.time = insert_table_time tabs.time
          ⟨st.document_id, st.time_id, st.start_s_id, st.start_w_id, st.start_time,
            st.s_id, st.w_real_id, etime⟩) ∧
    (∀ st tabs i t0 sid t1 wid valueA text path st' tabs',
      pyIndex (splitOnChar '.' i) 0 = .ok t0 → pyInt t0 = .ok sid →
      pyIndex (splitOnChar '.' i) 1 = .ok t1 → pyInt t1 = .ok wid →
      st.start_s_id < 0 →
      write_node st tabs (strL "w") (some i) valueA text path = .ok (st', tabs') →
      st'.start_s_id = sid ∧ st'.start_w_id = wid ∧ st'.s_id = sid ∧
        st'.w_real_id = wid) := by
  constructor
  · intro st tabs i v c etime text path st' tabs' hc hS hv hok
    rw [write_node_time_close_eval st tabs i v text path c etime hc hS hv] at hok
    simp only [Except.ok.injEq, Prod.mk.injEq] at hok
    obtain ⟨h1, h2⟩ := hok
    rw [← h1, ← h2]
    exact ⟨rfl, rfl, rfl, rfl, rfl, rfl, rfl, rfl⟩
  · intro st tabs i t0 sid t1 wid valueA text path st' tabs' h0 hs h1 hw hlt hok
    rw [write_node_w_eval st tabs i valueA text path t0 t1 sid wid h0 hs h1 hw,
      if_pos hlt] at hok
    simp only [Except.ok.injEq, Prod.mk.injEq] at hok
    obtain ⟨ha, hb⟩ := hok
    rw [← ha]
    exact ⟨rfl, rfl, rfl, rfl⟩

/-- A mid-run handler state with a consumed span (start marker reset), used by the C10
witness: document 42, current position (3,4), stale `time_id = 7`, `start_time "0:0:9"`,
pending start `(1,2)`. -/
def stC10 : St := ⟨42, 3, 4, 7, strL "0:0:9", 1, 2, [], -1, -1⟩

/-- Witness for C10: a concrete close keeps `time_id = 7` and `start_time` while
resetting `start_s_id`, and a concrete word node under `start_s_id = -1` re-captures
the start position. -/
theorem close_frame_and_recapture_witness :
    (({stC10 with end_time := strL "0:0:3.000", start_s_id := -1} : St).start_s_id = -1 ∧
      ({stC10 with end_time := strL "0:0:3.000", start_s_id := -1} : St).time_id =
        stC10.time_id) ∧
    ({stInit with s_id := 3, w_real_id := 4, start_s_id := 3, start_w_id := 4} : St).start_s_id = 3 :=
  ⟨(fun h => ⟨h.1, h.2.1⟩)
    (close_frame_and_recapture.1 stC10 tablesInit (strL "T2E") (strL "0:00:03,000") 'E'
      (strL "0:0:3.000") none []
      {stC10 with end_time := strL "0:0:3.000", start_s_id := -1}
      {tablesInit with time := (insert_table_time tablesInit.time
        ⟨42, 7, 1, 2, strL "0:0:9", 3, 4, strL "0:0:3.000"⟩)}
      (by decide) (by decide) (by decide) (by decide)),
   (close_frame_and_recapture.2 stInit tablesInit (strL "3.4") (strL "3") 3 (strL "4") 4
      none none []
      {stInit with s_id := 3, w_real_id := 4, start_s_id := 3, start_w_id := 4}
      {tablesInit with words := (insert_table_words tablesInit.words ⟨-1, 3, 4, none⟩)}
      (by decide) (by decide) (by decide) (by decide) (by decide) (by decide)).1⟩

/-- A file whose word node has the unparsable id `"x"` (no `.` separator). -/
def badFile : XmlNode :=
  .node (strL "document") (some (strL "1")) none none
    [.node (strL "w") (some (strL "x")) none (some (strL "oops")) []]

/-- A well-formed file whose word row would be `(2,1,1,"ok")`. -/
def goodFile : XmlNode :=
  .node (strL "document") (some (strL "2")) none none
    [.node (strL "s") (some (strL "1")) none none [wNode "1.1" "ok"]]

/-- Claim C5 counterexample: in the batch `[badFile, goodFile]` the malformed word id
`"x"` raises a plain `ValueError` (the source defines no `MalformedNodeError` and
`main`'s per-file loop has no exception handler), the run stops, and `goodFile` is never
processed — its row `(2,1,1,"ok")` is absent, so remaining files do NOT continue. -/
theorem batch_abort_on_malformed :
    (export_run stInit tablesInit [badFile, goodFile]).2.1.words = [] ∧
    (export_run stInit tablesInit [badFile, goodFile]).2.2 = some Err.valueError := by
  decide

/-- Claim C5 (amended): a word or time node whose id cannot be split/parsed into the
expected numeric parts raises a plain parse error (`ValueError` — no
`MalformedNodeError` exists in the source), and the uncaught exception ends the
per-file loop of `main` at that file: the remaining files of the batch are NOT
processed. -/
theorem malformed_id_aborts_batch :
    (∀ st tabs f fs st1 tabs1 e,
      pre_order st tabs [] f = (st1, tabs1, some e) →
      export_run st tabs (f :: fs) = (st1, tabs1, some e)) ∧
    (∀ st tabs valueA text path,
      write_node st tabs (strL "w") (some (strL "x")) valueA text path =
        .error Err.valueError) ∧
    (∀ st tabs valueA text path,
      write_node st tabs (strL "time") (some (strL "1S")) valueA text path =
        .error Err.valueError) :=
  ⟨fun st tabs f fs st1 tabs1 e h => export_run_cons_error st tabs f fs st1 tabs1 e h,
   fun _ _ _ _ _ => rfl,
   fun _ _ _ _ _ => rfl⟩

/-- Witness for the amended C5: the concrete two-file batch aborts at the bad file. -/
theorem malformed_id_aborts_batch_witness :
    export_run stInit tablesInit [badFile, goodFile] =
      ({stInit with document_id := 1}, tablesInit, some Err.valueError) ∧
    write_node stInit tablesInit (strL "w") (some (strL "x")) none none [] =
      .error Err.valueError :=
  ⟨malformed_id_aborts_batch.1 stInit tablesInit badFile [goodFile]
      {stInit with document_id := 1} tablesInit Err.valueError (by decide),
   malformed_id_aborts_batch.2.1 stInit tablesInit none none []⟩

/-- First C6 file: just a document node with id 5. -/
def f1C6 : XmlNode := .node (strL "document") (some (strL "5")) none none []

/-- Second C6 file: a sentence with one word, no document node of its own. -/
def f2C6 : XmlNode := .node (strL "s") (some (strL "1")) none none [wNode "1.1" "hi"]

/-- Claim C6 counterexample: the handler state is created once in `main` and reused
across files without reset: after a first file whose document id is 5, the second file
produces the Word row `(5,1,1,"hi")`, while the same file processed alone from the
initial state produces `(-1,1,1,"hi")` — the rows of a file depend on the files
traversed before it. -/
theorem state_carryover :
    (export_run stInit tablesInit [f1C6, f2C6]).2.1.words =
      [⟨5, 1, 1, some (strL "hi")⟩] ∧
    (export_run stInit tablesInit [f2C6]).2.1.words =
      [⟨-1, 1, 1, some (strL "hi")⟩] ∧
    ((⟨5, 1, 1, some (strL "hi")⟩ : WordRow) ≠ ⟨-1, 1, 1, some (strL "hi")⟩) := by decide

/-- Claim C6 (amended): traversal state is initialized once at handler construction and
then threaded across files with no per-file reset — each subsequent file's walk starts
from exactly the state the previous file left behind. -/
theorem state_threaded_across_files :
    ∀ st tabs f fs st1 tabs1,
      pre_order st tabs [] f = (st1, tabs1, none) →
      export_run st tabs (f :: fs) = export_run st1 tabs1 fs :=
  fun st tabs f fs st1 tabs1 h => export_run_cons_ok st tabs f fs st1 tabs1 h

/-- Witness for the amended C6: after the first file sets document id 5, the second
file's walk starts from that carried state, not from the initial one. -/
theorem state_threaded_across_files_witness :
    export_run stInit tablesInit [f1C6, f2C6] =
      export_run {stInit with document_id := 5} tablesInit [f2C6] :=
  state_threaded_across_files stInit tablesInit f1C6 [f2C6]
    {stInit with document_id := 5} tablesInit (by decide)

end OpenSubExp
